import Mathlib

/-!
Verification of the eliza-starter coordination core: canonical signing,
resilient channel backoff, effect overlay, participant client, and the
debate turn orchestrator, embedded shallowly from the TypeScript source.
-/

namespace PVPVAI

/-- JSON values, the payload universe of the wire protocol.  Numbers are
modelled as integers (the spec excludes non-finite numerics from the
signable domain). -/
inductive Json where
  | null : Json
  | bool : Bool → Json
  | num : Int → Json
  | str : String → Json
  | arr : List Json → Json
  | obj : List (String × Json) → Json
deriving Repr, BEq

/-- Key-ordering relation used to sort object entries: compare the keys
lexicographically (`String`'s linear order). -/
def keyLE (a b : String × Json) : Prop := a.1 ≤ b.1

instance : DecidableRel keyLE := fun a b =>
  inferInstanceAs (Decidable (a.1 ≤ b.1))

instance : IsTotal (String × Json) keyLE :=
  ⟨fun a b => le_total a.1 b.1⟩

instance : IsTrans (String × Json) keyLE :=
  ⟨fun _ _ _ h h2 => le_trans h h2⟩

/-- Strict variant of `keyLE`, used to exploit key distinctness. -/
def keyLT (a b : String × Json) : Prop := a.1 < b.1

instance : IsAntisymm (String × Json) keyLT :=
  ⟨fun a _ h h2 => absurd (lt_trans h h2) (lt_irrefl a.1)⟩

/-- Sort a list of object entries by key (lexicographic). -/
def sortPairs (l : List (String × Json)) : List (String × Json) :=
  l.insertionSort keyLE

mutual
/-- Modelled from the spec: `sortObjectKeys.ts` is imported by
`signMessage.ts` and `shared-websocket.ts` but its file is not part of the
provided sources.  Per spec §4.1, `canonicalize(payload)` "recursively
sorts all mapping keys (lexicographic) to produce a deterministic
serialization independent of how fields were assembled". -/
def sortObjectKeys : Json → Json
  | .null => .null
  | .bool b => .bool b
  | .num n => .num n
  | .str s => .str s
  | .arr l => .arr (sortArrVals l)
  | .obj l => .obj (sortPairs (sortObjVals l))

/-- Recurse `sortObjectKeys` into array elements. -/
def sortArrVals : List Json → List Json
  | [] => []
  | x :: xs => sortObjectKeys x :: sortArrVals xs

/-- Recurse `sortObjectKeys` into object entry values. -/
def sortObjVals : List (String × Json) → List (String × Json)
  | [] => []
  | (k, v) :: xs => (k, sortObjectKeys v) :: sortObjVals xs
end

/-- JSON string escaping for one character, as in `JSON.stringify`
(quote and backslash; control characters do not occur in the payloads
modelled here). -/
def escapeChar (c : Char) : String :=
  if c = '"' then "\\\""
  else if c = '\\' then "\\\\"
  else String.singleton c

/-- Escape a string body for JSON serialization. -/
def escapeString (s : String) : String :=
  s.data.foldr (fun c acc => escapeChar c ++ acc) ""

mutual
/-- `JSON.stringify` on the `Json` model: compact serialization with no
extra whitespace, object entries in stored order. -/
def stringify : Json → String
  | .null => "null"
  | .bool b => if b then "true" else "false"
  | .num n => toString n
  | .str s => "\"" ++ escapeString s ++ "\""
  | .arr l => "[" ++ stringifyArr l ++ "]"
  | .obj l => "\x7b" ++ stringifyObj l ++ "\x7d"

/-- Serialize array elements, comma separated. -/
def stringifyArr : List Json → String
  | [] => ""
  | [x] => stringify x
  | x :: y :: xs => stringify x ++ "," ++ stringifyArr (y :: xs)

/-- Serialize object entries, comma separated. -/
def stringifyObj : List (String × Json) → String
  | [] => ""
  | [(k, v)] => "\"" ++ escapeString k ++ "\":" ++ stringify v
  | (k, v) :: p :: xs =>
      "\"" ++ escapeString k ++ "\":" ++ stringify v ++ "," ++
        stringifyObj (p :: xs)
end

/-- JavaScript truthiness test on an optional field value
(`undefined`, `null`, `false`, `0` and `""` are falsy; objects and
arrays are truthy).  `!content.timestamp` in `signMessage` is
`jsFalsy` of the looked-up field. -/
def jsFalsy : Option Json → Bool
  | none => true
  | some .null => true
  | some (.bool b) => !b
  | some (.num n) => n == 0
  | some (.str s) => s == ""
  | some (.arr _) => false
  | some (.obj _) => false

/-- JavaScript property assignment `o[k] = v` on an object modelled as an
entry list: an existing key keeps its position and gets the new value;
a fresh key is appended (insertion order). -/
def jsSetField (l : List (String × Json)) (k : String) (v : Json) :
    List (String × Json) :=
  if l.any (fun p => p.1 == k) then
    l.map (fun p => if p.1 == k then (k, v) else p)
  else l ++ [(k, v)]

/-- `ethers` `Wallet.signMessage` modelled as a deterministic function of
the private key and the message bytes; the library's ECDSA signing is
external to this repository and deterministic (RFC 6979), which is the
only property the code relies on. -/
def walletSign (privateKey message : String) : String :=
  privateKey ++ ":" ++ message

/-- `signMessage` from `signMessage.ts` lines 277–298: fill `timestamp`
with the current time when absent or falsy (mutating the caller's
payload), sort keys deterministically, `JSON.stringify`, and sign the
resulting string.  Returns the signature together with the payload as
left behind by the mutation. -/
def signMessage (content : List (String × Json)) (privateKey : String)
    (now : Int) : String × List (String × Json) :=
  let content2 :=
    if jsFalsy (content.lookup "timestamp") then
      jsSetField content "timestamp" (.num now)
    else content
  let orderedContent := sortObjectKeys (.obj content2)
  let messageString := stringify orderedContent
  (walletSign privateKey messageString, content2)

/-! ### Canonical signing: construction-order independence (C1) -/

theorem sortObjVals_eq_map (l : List (String × Json)) :
    sortObjVals l = l.map (fun p => (p.1, sortObjectKeys p.2)) := by
  induction l with
  | nil => rfl
  | cons p xs ih => cases p; simp [sortObjVals, ih]

theorem any_perm {l1 l2 : List (String × Json)} (h : l1.Perm l2)
    (f : String × Json → Bool) : l1.any f = l2.any f := by
  have hiff : (l1.any f = true) ↔ (l2.any f = true) := by
    simp only [List.any_eq_true]
    exact ⟨fun ⟨x, hx, hf⟩ => ⟨x, h.mem_iff.mp hx, hf⟩,
      fun ⟨x, hx, hf⟩ => ⟨x, h.mem_iff.mpr hx, hf⟩⟩
  exact Bool.eq_iff_iff.mpr hiff

theorem lookup_perm (k : String) {l1 l2 : List (String × Json)}
    (h : l1.Perm l2) (hnd : (l1.map Prod.fst).Nodup) :
    l1.lookup k = l2.lookup k := by
  induction h with
  | nil => rfl
  | cons x h ih =>
      simp only [List.map_cons, List.nodup_cons] at hnd
      simp only [List.lookup]
      cases hx : (k == x.1) <;> simp [ih hnd.2]
  | swap x y l =>
      simp only [List.map_cons, List.nodup_cons, List.mem_cons] at hnd
      have hxy : y.1 ≠ x.1 := fun he => hnd.1 (Or.inl he)
      simp only [List.lookup]
      cases hy : (k == y.1) <;> cases hx : (k == x.1) <;> simp_all
  | trans h1 h2 ih1 ih2 =>
      have hnd2 : ((_ : List (String × Json)).map Prod.fst).Nodup :=
        (h1.map Prod.fst).nodup hnd
      exact (ih1 hnd).trans (ih2 hnd2)

theorem jsSetField_perm {l1 l2 : List (String × Json)} (h : l1.Perm l2)
    (k : String) (v : Json) :
    (jsSetField l1 k v).Perm (jsSetField l2 k v) := by
  unfold jsSetField
  rw [any_perm h]
  split
  · exact h.map _
  · exact h.append_right _

theorem jsSetField_keys_nodup {l : List (String × Json)}
    (hnd : (l.map Prod.fst).Nodup) (k : String) (v : Json) :
    ((jsSetField l k v).map Prod.fst).Nodup := by
  unfold jsSetField
  split
  · rw [List.map_map]
    have he : (Prod.fst ∘ fun p : String × Json =>
        if p.1 == k then (k, v) else p) = Prod.fst := by
      funext p
      simp only [Function.comp_apply]
      split
      · next hc => exact (beq_iff_eq.mp hc).symm
      · rfl
    rw [he]; exact hnd
  · next hany =>
      rw [List.map_append]
      rw [List.nodup_append]
      refine ⟨hnd, List.nodup_singleton k, ?_⟩
      intro a ha hb
      simp only [List.map_cons, List.map_nil, List.mem_singleton] at hb
      subst hb
      rw [List.mem_map] at ha
      obtain ⟨p, hp, hpk⟩ := ha
      apply hany
      rw [List.any_eq_true]
      exact ⟨p, hp, beq_iff_eq.mpr hpk⟩

theorem sorted_keyLT {l : List (String × Json)} (hs : l.Sorted keyLE)
    (hnd : (l.map Prod.fst).Nodup) : l.Sorted keyLT := by
  have hp : l.Pairwise (fun a b : String × Json => a.1 ≠ b.1) :=
    (List.pairwise_map).mp hnd
  exact (hs.and hp).imp (fun h => lt_of_le_of_ne h.1 h.2)

theorem sortPairs_sorted (l : List (String × Json)) :
    (sortPairs l).Sorted keyLE :=
  List.sorted_insertionSort keyLE l

theorem sortPairs_perm (l : List (String × Json)) :
    (sortPairs l).Perm l :=
  List.perm_insertionSort keyLE l

theorem sortPairs_eq_of_perm {l1 l2 : List (String × Json)}
    (h : l1.Perm l2) (hnd : (l1.map Prod.fst).Nodup) :
    sortPairs l1 = sortPairs l2 := by
  have hperm : (sortPairs l1).Perm (sortPairs l2) :=
    (sortPairs_perm l1).trans (h.trans (sortPairs_perm l2).symm)
  have hnd1 : ((sortPairs l1).map Prod.fst).Nodup :=
    ((sortPairs_perm l1).map Prod.fst).symm.nodup hnd
  have hndl2 : (l2.map Prod.fst).Nodup := (h.map Prod.fst).nodup hnd
  have hnd2 : ((sortPairs l2).map Prod.fst).Nodup :=
    ((sortPairs_perm l2).map Prod.fst).symm.nodup hndl2
  exact List.eq_of_perm_of_sorted hperm
    (sorted_keyLT (sortPairs_sorted l1) hnd1)
    (sorted_keyLT (sortPairs_sorted l2) hnd2)

theorem sortObjectKeys_obj_perm {l1 l2 : List (String × Json)}
    (h : l1.Perm l2) (hnd : (l1.map Prod.fst).Nodup) :
    sortObjectKeys (.obj l1) = sortObjectKeys (.obj l2) := by
  show Json.obj (sortPairs (sortObjVals l1)) = Json.obj (sortPairs (sortObjVals l2))
  rw [sortObjVals_eq_map, sortObjVals_eq_map]
  congr 1
  apply sortPairs_eq_of_perm (h.map _)
  rw [List.map_map]
  have he : (Prod.fst ∘ fun p : String × Json => (p.1, sortObjectKeys p.2))
      = Prod.fst := by
    funext p; rfl
  rw [he]; exact hnd

/-- C1: for every payload, canonical serialization (sortObjectKeys
followed by JSON stringification, as performed inside signMessage) is
byte-identical across any two construction orders of the same key/value
set, and signMessage over the two constructions with the same private
key produces identical signatures. -/
theorem signMessage_order_independent
    (l1 l2 : List (String × Json)) (pk : String) (now : Int)
    (hperm : l1.Perm l2) (hnd : (l1.map Prod.fst).Nodup) :
    sortObjectKeys (.obj l1) = sortObjectKeys (.obj l2) ∧
    stringify (sortObjectKeys (.obj l1)) =
      stringify (sortObjectKeys (.obj l2)) ∧
    (signMessage l1 pk now).1 = (signMessage l2 pk now).1 := by
  have h1 := sortObjectKeys_obj_perm hperm hnd
  refine ⟨h1, by rw [h1], ?_⟩
  simp only [signMessage]
  rw [lookup_perm "timestamp" hperm hnd]
  split
  · have hp := jsSetField_perm hperm "timestamp" (.num now)
    have hn := jsSetField_keys_nodup hnd "timestamp" (.num now)
    rw [sortObjectKeys_obj_perm hp hn]
  · rw [h1]

theorem signMessage_order_independent_witness :
    sortObjectKeys (.obj [("b", .num 1), ("a", .num 2)]) =
      sortObjectKeys (.obj [("a", .num 2), ("b", .num 1)]) ∧
    stringify (sortObjectKeys (.obj [("b", .num 1), ("a", .num 2)])) =
      stringify (sortObjectKeys (.obj [("a", .num 2), ("b", .num 1)])) ∧
    (signMessage [("b", .num 1), ("a", .num 2)] "k" 7).1 =
      (signMessage [("a", .num 2), ("b", .num 1)] "k" 7).1 :=
  signMessage_order_independent _ _ "k" 7
    (List.Perm.swap ("a", Json.num 2) ("b", Json.num 1) []) (by decide)

/-! ### signMessage timestamp frame effect (C10) -/

theorem any_key_eq_lookup_isSome {β : Type} (l : List (String × β)) (k : String) :
    l.any (fun p => p.1 == k) = (l.lookup k).isSome := by
  induction l with
  | nil => rfl
  | cons p xs ih =>
      simp only [List.any_cons, List.lookup]
      cases hp : (k == p.1)
      · have hne : (p.1 == k) = false := by
          rw [beq_eq_false_iff_ne] at hp ⊢
          exact fun he => hp he.symm
        simp [hne, ih]
      · have heq : (p.1 == k) = true :=
          beq_iff_eq.mpr (beq_iff_eq.mp hp).symm
        simp [heq]

theorem lookup_override {β : Type} {l : List (String × β)} {k : String} (v : β)
    (h : (l.lookup k).isSome) :
    (l.map (fun p => if p.1 == k then (k, v) else p)).lookup k = some v := by
  induction l with
  | nil => simp at h
  | cons p xs ih =>
      obtain ⟨a, b⟩ := p
      simp only [List.map_cons]
      by_cases hp : a = k
      · have hp2 : (a == k) = true := beq_iff_eq.mpr hp
        rw [if_pos hp2, List.lookup_cons]
        simp
      · have hp2 : (a == k) = false := beq_eq_false_iff_ne.mpr hp
        have hp3 : (k == a) = false :=
          beq_eq_false_iff_ne.mpr (fun he => hp he.symm)
        rw [if_neg (by simp [hp2])]
        rw [List.lookup_cons, hp3] at h
        rw [List.lookup_cons, hp3]
        exact ih h

theorem lookup_map_ne {β : Type} {l : List (String × β)} {ts k : String} (v : β)
    (hk : k ≠ ts) :
    (l.map (fun p => if p.1 == ts then (ts, v) else p)).lookup k =
      l.lookup k := by
  induction l with
  | nil => rfl
  | cons p xs ih =>
      obtain ⟨a, b⟩ := p
      simp only [List.map_cons]
      by_cases hp : a = ts
      · have hp2 : (a == ts) = true := beq_iff_eq.mpr hp
        have hkts : (k == ts) = false := beq_eq_false_iff_ne.mpr hk
        have hkp : (k == a) = false := by rw [hp]; exact hkts
        rw [if_pos hp2, List.lookup_cons, List.lookup_cons, hkts, hkp]
        exact ih
      · have hp2 : (a == ts) = false := beq_eq_false_iff_ne.mpr hp
        rw [if_neg (by simp [hp2]), List.lookup_cons, List.lookup_cons]
        cases hkp : (k == a)
        · exact ih
        · rfl

theorem lookup_append_ne {β : Type} {l : List (String × β)} {ts k : String}
    (v : β) (hk : k ≠ ts) : (l ++ [(ts, v)]).lookup k = l.lookup k := by
  induction l with
  | nil =>
      have hkts : (k == ts) = false := beq_eq_false_iff_ne.mpr hk
      rw [List.nil_append, List.lookup_cons, hkts]
  | cons p xs ih =>
      obtain ⟨a, b⟩ := p
      rw [List.cons_append, List.lookup_cons, List.lookup_cons]
      cases hp : (k == a)
      · exact ih
      · rfl

theorem lookup_append_self {β : Type} {l : List (String × β)} {ts : String}
    (v : β) (h : l.lookup ts = none) :
    (l ++ [(ts, v)]).lookup ts = some v := by
  induction l with
  | nil =>
      rw [List.nil_append, List.lookup_cons, beq_self_eq_true]
  | cons p xs ih =>
      obtain ⟨a, b⟩ := p
      rw [List.lookup_cons] at h
      rw [List.cons_append, List.lookup_cons]
      cases hp : (ts == a)
      · rw [hp] at h
        exact ih h
      · rw [hp] at h
        simp at h

/-- C10: signMessage writes the current time into the caller's payload
when the `timestamp` field is absent or falsy (such as 0), leaving all
other fields untouched; a payload with a nonzero numeric timestamp is
left entirely unchanged by signing. -/
theorem signMessage_timestamp_frame
    (content : List (String × Json)) (pk : String) (now : Int) :
    ((content.lookup "timestamp" = none ∨
        content.lookup "timestamp" = some (.num 0)) →
      ((signMessage content pk now).2.lookup "timestamp" =
          some (.num now) ∧
        ∀ k, k ≠ "timestamp" →
          (signMessage content pk now).2.lookup k = content.lookup k)) ∧
    (∀ n : Int, n ≠ 0 → content.lookup "timestamp" = some (.num n) →
      (signMessage content pk now).2 = content) := by
  constructor
  · intro h
    have hfalsy : jsFalsy (content.lookup "timestamp") = true := by
      rcases h with h | h <;> simp [h, jsFalsy]
    simp only [signMessage, hfalsy, if_true]
    rcases h with h | h
    · have hany : content.any (fun p => p.1 == "timestamp") = false := by
        rw [any_key_eq_lookup_isSome, h]; rfl
      simp only [jsSetField, hany, Bool.false_eq_true, if_false]
      exact ⟨lookup_append_self _ h, fun k hk => lookup_append_ne _ hk⟩
    · have hsome : (content.lookup "timestamp").isSome := by rw [h]; rfl
      have hany : content.any (fun p => p.1 == "timestamp") = true := by
        rw [any_key_eq_lookup_isSome, h]; rfl
      simp only [jsSetField, hany, if_true]
      exact ⟨lookup_override _ hsome, fun k hk => lookup_map_ne _ hk⟩
  · intro n hn h
    have hfalsy : jsFalsy (content.lookup "timestamp") = false := by
      simp [h, jsFalsy, hn]
    simp [signMessage, hfalsy]

theorem signMessage_timestamp_frame_witness :
    (([("roomId", Json.num 3)].lookup "timestamp" = none ∨
        [("roomId", Json.num 3)].lookup "timestamp" = some (.num 0)) →
      ((signMessage [("roomId", Json.num 3)] "k" 99).2.lookup "timestamp" =
          some (.num 99) ∧
        ∀ k, k ≠ "timestamp" →
          (signMessage [("roomId", Json.num 3)] "k" 99).2.lookup k =
            [("roomId", Json.num 3)].lookup k)) ∧
    (∀ n : Int, n ≠ 0 →
      [("roomId", Json.num 3)].lookup "timestamp" = some (.num n) →
      (signMessage [("roomId", Json.num 3)] "k" 99).2 =
        [("roomId", Json.num 3)]) :=
  signMessage_timestamp_frame [("roomId", Json.num 3)] "k" 99

/-! ### Bounded message context (C4) -/

/-- One entry of the per-participant message history
(`MessageHistoryEntry`, as populated in `processSystemMessage`). -/
structure MessageHistoryEntry where
  timestamp : Int
  agentId : Int
  text : String
  agentName : String
  role : String
deriving Repr, BEq, DecidableEq

/-- `MAX_CONTEXT_SIZE` from `AgentClient` (and `PVPVAIIntegration`). -/
def MAX_CONTEXT_SIZE : Nat := 8

/-- `AgentClient.updateMessageContext` (lines 788–793), identical in
shape to `PVPVAIIntegration.updateMessageContext` (lines 231–236): when
the context has reached `MAX_CONTEXT_SIZE`, `shift()` drops the oldest
entry, then the new entry is pushed at the end. -/
def updateMessageContext (ctx : List MessageHistoryEntry)
    (entry : MessageHistoryEntry) : List MessageHistoryEntry :=
  let ctx2 := if MAX_CONTEXT_SIZE ≤ ctx.length then ctx.tail else ctx
  ctx2 ++ [entry]

/-- Pushing a sequence of entries one by one. -/
def pushEntries (ctx : List MessageHistoryEntry)
    (es : List MessageHistoryEntry) : List MessageHistoryEntry :=
  es.foldl updateMessageContext ctx

theorem updateMessageContext_length_le
    (ctx : List MessageHistoryEntry) (e : MessageHistoryEntry)
    (h : ctx.length ≤ MAX_CONTEXT_SIZE) :
    (updateMessageContext ctx e).length ≤ MAX_CONTEXT_SIZE := by
  have h8 : MAX_CONTEXT_SIZE = 8 := rfl
  unfold updateMessageContext
  split
  · next hc =>
      simp only [List.length_append, List.length_tail, List.length_cons,
        List.length_nil]
      omega
  · next hc =>
      simp only [List.length_append, List.length_cons, List.length_nil]
      omega

theorem pushEntries_eq_drop
    (es : List MessageHistoryEntry) (ctx : List MessageHistoryEntry)
    (h : ctx.length ≤ MAX_CONTEXT_SIZE) :
    pushEntries ctx es =
      (ctx ++ es).drop (ctx.length + es.length - MAX_CONTEXT_SIZE) := by
  induction es generalizing ctx with
  | nil =>
      have h8 : MAX_CONTEXT_SIZE = 8 := rfl
      simp only [pushEntries, List.foldl_nil, List.append_nil,
        List.length_nil]
      rw [show ctx.length + 0 - MAX_CONTEXT_SIZE = 0 by omega,
        List.drop_zero]
  | cons e es ih =>
      have h8 : MAX_CONTEXT_SIZE = 8 := rfl
      have hstep := updateMessageContext_length_le ctx e h
      show pushEntries (updateMessageContext ctx e) es = _
      rw [ih _ hstep]
      by_cases hc : MAX_CONTEXT_SIZE ≤ ctx.length
      · have hlen : ctx.length = MAX_CONTEXT_SIZE := le_antisymm h hc
        have hne : ctx ≠ [] := by
          intro he
          rw [he] at hlen
          simp [h8] at hlen
        obtain ⟨c, rest, rfl⟩ := List.exists_cons_of_ne_nil hne
        simp only [List.length_cons] at hlen
        have hu : updateMessageContext (c :: rest) e = rest ++ [e] := by
          unfold updateMessageContext
          rw [if_pos hc]
          rfl
        rw [hu]
        have e1 : (rest ++ [e]).length + es.length - MAX_CONTEXT_SIZE =
            es.length := by
          simp only [List.length_append, List.length_cons, List.length_nil]
          omega
        have e2 : (c :: rest).length + (e :: es).length - MAX_CONTEXT_SIZE =
            es.length + 1 := by
          simp only [List.length_cons]
          omega
        rw [e1, e2, List.cons_append, List.drop_succ_cons,
          List.append_assoc, List.singleton_append]
      · have hu : updateMessageContext ctx e = ctx ++ [e] := by
          unfold updateMessageContext
          rw [if_neg hc]
        rw [hu, List.append_assoc, List.singleton_append]
        congr 1
        simp only [List.length_append, List.length_cons, List.length_nil]
        omega

/-- C4: starting from any context state with at most
`MAX_CONTEXT_SIZE = 8` entries, each single push keeps the size at most
8, and pushing 9 entries leaves exactly 8 entries: the suffix of the push
sequence, so the oldest entry was evicted first and the order of the
remaining entries is preserved. -/
theorem messageContext_bounded
    (ctx : List MessageHistoryEntry) (es : List MessageHistoryEntry)
    (h : ctx.length ≤ MAX_CONTEXT_SIZE) :
    (∀ e, (updateMessageContext ctx e).length ≤ MAX_CONTEXT_SIZE) ∧
    (es.length = MAX_CONTEXT_SIZE + 1 →
      (pushEntries ctx es).length = MAX_CONTEXT_SIZE ∧
      pushEntries ctx es = (ctx ++ es).drop (ctx.length + 1)) := by
  refine ⟨fun e => updateMessageContext_length_le ctx e h, fun hlen => ?_⟩
  have heq := pushEntries_eq_drop es ctx h
  have hidx : ctx.length + es.length - MAX_CONTEXT_SIZE = ctx.length + 1 := by
    rw [hlen]; omega
  rw [hidx] at heq
  refine ⟨?_, heq⟩
  rw [heq, List.length_drop, List.length_append, hlen]
  omega

theorem messageContext_bounded_witness :
    ((List.replicate 3 (MessageHistoryEntry.mk 0 50 "t" "n" "agent")).length ≤
        MAX_CONTEXT_SIZE) ∧
    ((∀ e, (updateMessageContext
        (List.replicate 3 (MessageHistoryEntry.mk 0 50 "t" "n" "agent"))
        e).length ≤ MAX_CONTEXT_SIZE) ∧
      ((List.replicate 9 (MessageHistoryEntry.mk 1 51 "u" "m" "gm")).length =
          MAX_CONTEXT_SIZE + 1 →
        (pushEntries
            (List.replicate 3 (MessageHistoryEntry.mk 0 50 "t" "n" "agent"))
            (List.replicate 9 (MessageHistoryEntry.mk 1 51 "u" "m" "gm"))).length =
            MAX_CONTEXT_SIZE ∧
        pushEntries
            (List.replicate 3 (MessageHistoryEntry.mk 0 50 "t" "n" "agent"))
            (List.replicate 9 (MessageHistoryEntry.mk 1 51 "u" "m" "gm")) =
          ((List.replicate 3 (MessageHistoryEntry.mk 0 50 "t" "n" "agent")) ++
              (List.replicate 9 (MessageHistoryEntry.mk 1 51 "u" "m" "gm"))).drop
            ((List.replicate 3 (MessageHistoryEntry.mk 0 50 "t" "n" "agent")).length + 1))) :=
  ⟨by decide,
    messageContext_bounded
      (List.replicate 3 (MessageHistoryEntry.mk 0 50 "t" "n" "agent"))
      (List.replicate 9 (MessageHistoryEntry.mk 1 51 "u" "m" "gm"))
      (by decide)⟩

/-! ### PvP effect registries (C7) -/

/-- JavaScript `Map.set` on an insertion-ordered map modelled as an
entry list: an existing key keeps its position and gets the new value;
a fresh key is appended. -/
def mapSet {α : Type} (m : List (String × α)) (k : String) (v : α) :
    List (String × α) :=
  if m.any (fun p => p.1 == k) then
    m.map (fun p => if p.1 == k then (k, v) else p)
  else m ++ [(k, v)]

/-- JavaScript `Map.delete`: remove the entry with the given key, no-op
when the key is absent. -/
def mapDelete {α : Type} (m : List (String × α)) (k : String) :
    List (String × α) :=
  m.filter (fun p => !(p.1 == k))

/-- A PvP action as consumed by `AgentClient.handlePvPStatusUpdate`
(`message.action` with its `type` field); `params` stands for the
action's remaining parameters. -/
structure PvPStatusAction where
  type : String
  params : String
deriving Repr, BEq, DecidableEq

/-- `AgentClient.handlePvPStatusUpdate` (lines 831–837): an enacted
action is stored under its effect type, a removed one is deleted by
effect type. -/
def handlePvPStatusUpdate (effects : List (String × PvPStatusAction))
    (msgType : String) (action : PvPStatusAction) :
    List (String × PvPStatusAction) :=
  if msgType == "PVP_ACTION_ENACTED" then mapSet effects action.type action
  else if msgType == "PVP_STATUS_REMOVED" then mapDelete effects action.type
  else effects

/-- A PvP action as consumed by `PVPVAIIntegration.updatePvPStatus`
(fields `actionType` and `targetId`). -/
structure PvPAction where
  actionType : String
  targetId : String
  params : String
deriving Repr, BEq, DecidableEq

/-- `PVPVAIIntegration.updatePvPStatus` (lines 238–244): a truthy
`actionType` stores the action keyed by `targetId`; a falsy one deletes
the `targetId` key. -/
def updatePvPStatus (effects : List (String × PvPAction))
    (action : PvPAction) : List (String × PvPAction) :=
  if action.actionType ≠ "" then mapSet effects action.targetId action
  else mapDelete effects action.targetId

theorem mapSet_lookup {α : Type} (m : List (String × α)) (k : String)
    (v : α) : (mapSet m k v).lookup k = some v := by
  unfold mapSet
  split
  · next hany =>
      apply lookup_override
      rw [← any_key_eq_lookup_isSome]
      exact hany
  · next hany =>
      cases hl : m.lookup k with
      | none => exact lookup_append_self v hl
      | some w =>
          exfalso
          apply hany
          rw [any_key_eq_lookup_isSome, hl]
          rfl

theorem mapSet_keys_nodup {α : Type} {m : List (String × α)}
    (hnd : (m.map Prod.fst).Nodup) (k : String) (v : α) :
    ((mapSet m k v).map Prod.fst).Nodup := by
  unfold mapSet
  split
  · rw [List.map_map]
    have he : (Prod.fst ∘ fun p : String × α =>
        if p.1 == k then (k, v) else p) = Prod.fst := by
      funext p
      simp only [Function.comp_apply]
      split
      · next hc => exact (beq_iff_eq.mp hc).symm
      · rfl
    rw [he]; exact hnd
  · next hany =>
      rw [List.map_append, List.nodup_append]
      refine ⟨hnd, List.nodup_singleton k, ?_⟩
      intro a ha hb
      simp only [List.map_cons, List.map_nil, List.mem_singleton] at hb
      subst hb
      rw [List.mem_map] at ha
      obtain ⟨p, hp, hpk⟩ := ha
      apply hany
      rw [List.any_eq_true]
      exact ⟨p, hp, beq_iff_eq.mpr hpk⟩

theorem mapSet_countP {α : Type} (m : List (String × α)) (k : String)
    (v : α) (hnd : (m.map Prod.fst).Nodup) :
    (mapSet m k v).countP (fun p => p.1 == k) = 1 := by
  have hcount : ∀ x : List (String × α),
      x.countP (fun p => p.1 == k) = (x.map Prod.fst).count k := by
    intro x
    rw [List.count, List.countP_map]
    rfl
  unfold mapSet
  split
  · next hany =>
      rw [hcount, List.map_map]
      have he : (Prod.fst ∘ fun p : String × α =>
          if p.1 == k then (k, v) else p) = Prod.fst := by
        funext p
        simp only [Function.comp_apply]
        split
        · next hc => exact (beq_iff_eq.mp hc).symm
        · rfl
      rw [he]
      apply List.count_eq_one_of_mem hnd
      rw [List.any_eq_true] at hany
      obtain ⟨p, hp, hpk⟩ := hany
      rw [List.mem_map]
      exact ⟨p, hp, beq_iff_eq.mp hpk⟩
  · next hany =>
      rw [List.countP_append]
      have h0 : m.countP (fun p => p.1 == k) = 0 := by
        rw [List.countP_eq_zero]
        intro p hp hpk
        exact hany (List.any_eq_true.mpr ⟨p, hp, hpk⟩)
      rw [h0]
      simp

theorem mapDelete_absent {α : Type} (m : List (String × α)) (k : String)
    (h : m.lookup k = none) : mapDelete m k = m := by
  unfold mapDelete
  rw [List.filter_eq_self]
  intro p hp
  have hany : m.any (fun p => p.1 == k) = false := by
    rw [any_key_eq_lookup_isSome, h]
    rfl
  rw [List.any_eq_false] at hany
  have := hany p hp
  simp only [Bool.not_eq_true] at this
  simp [this]

/-- C7 counterexample: in `PVPVAIIntegration.updatePvPStatus` the
registry is keyed by `targetId`, so activating the POISON effect type
twice, against targets 50 and 56, leaves two active records whose
`actionType` is POISON — not exactly one. -/
theorem updatePvPStatus_two_records_of_same_type :
    ¬ (((updatePvPStatus
          (updatePvPStatus [] (PvPAction.mk "POISON" "50" "p1"))
          (PvPAction.mk "POISON" "56" "p2")).filter
            (fun p => p.2.actionType == "POISON")).length = 1) := by
  decide

/-- C7 (amended): in `AgentClient.handlePvPStatusUpdate`, whose registry
is keyed by effect type, activating an effect of type T twice leaves
exactly one active record for T, holding the latest activation; and in
either registry, deactivating a key with no active record leaves the
registry unchanged.  In `PVPVAIIntegration.updatePvPStatus` the
replacement happens per `targetId` instead, so two same-type activations
coincide only when they share a target. -/
theorem handlePvPStatusUpdate_upsert
    (effects : List (String × PvPStatusAction)) (a1 a2 : PvPStatusAction)
    (hnd : (effects.map Prod.fst).Nodup) (ht : a1.type = a2.type) :
    (((handlePvPStatusUpdate
        (handlePvPStatusUpdate effects "PVP_ACTION_ENACTED" a1)
        "PVP_ACTION_ENACTED" a2).filter
          (fun p => p.1 == a2.type)).length = 1 ∧
      (handlePvPStatusUpdate
        (handlePvPStatusUpdate effects "PVP_ACTION_ENACTED" a1)
        "PVP_ACTION_ENACTED" a2).lookup a2.type = some a2) ∧
    (∀ b : PvPStatusAction, effects.lookup b.type = none →
      handlePvPStatusUpdate effects "PVP_STATUS_REMOVED" b = effects) ∧
    (∀ c : PvPAction, ∀ m : List (String × PvPAction),
      m.lookup c.targetId = none → c.actionType = "" →
      updatePvPStatus m c = m) := by
  have hen : ∀ (m : List (String × PvPStatusAction)) (a : PvPStatusAction),
      handlePvPStatusUpdate m "PVP_ACTION_ENACTED" a = mapSet m a.type a := by
    intro m a
    unfold handlePvPStatusUpdate
    rw [if_pos (by decide)]
  have hrm : ∀ (m : List (String × PvPStatusAction)) (a : PvPStatusAction),
      handlePvPStatusUpdate m "PVP_STATUS_REMOVED" a =
        mapDelete m a.type := by
    intro m a
    unfold handlePvPStatusUpdate
    rw [if_neg (by decide), if_pos (by decide)]
  have hnd1 : (((mapSet effects a1.type a1).map Prod.fst)).Nodup :=
    mapSet_keys_nodup hnd a1.type a1
  refine ⟨⟨?_, ?_⟩, fun b hb => ?_, fun c m hm hc => ?_⟩
  · rw [hen, hen, ht, ← List.countP_eq_length_filter]
    exact mapSet_countP _ a2.type a2 (ht ▸ hnd1)
  · rw [hen, hen]
    exact mapSet_lookup _ a2.type a2
  · rw [hrm]
    exact mapDelete_absent effects b.type hb
  · unfold updatePvPStatus
    rw [if_neg (by simp [hc])]
    exact mapDelete_absent m c.targetId hm

theorem handlePvPStatusUpdate_upsert_witness :
    (((handlePvPStatusUpdate
        (handlePvPStatusUpdate [] "PVP_ACTION_ENACTED"
          (PvPStatusAction.mk "POISON" "p1"))
        "PVP_ACTION_ENACTED" (PvPStatusAction.mk "POISON" "p2")).filter
          (fun p => p.1 == (PvPStatusAction.mk "POISON" "p2").type)).length = 1 ∧
      (handlePvPStatusUpdate
        (handlePvPStatusUpdate [] "PVP_ACTION_ENACTED"
          (PvPStatusAction.mk "POISON" "p1"))
        "PVP_ACTION_ENACTED"
          (PvPStatusAction.mk "POISON" "p2")).lookup
            (PvPStatusAction.mk "POISON" "p2").type =
          some (PvPStatusAction.mk "POISON" "p2")) ∧
    (∀ b : PvPStatusAction, ([] : List (String × PvPStatusAction)).lookup b.type = none →
      handlePvPStatusUpdate [] "PVP_STATUS_REMOVED" b = []) ∧
    (∀ c : PvPAction, ∀ m : List (String × PvPAction),
      m.lookup c.targetId = none → c.actionType = "" →
      updatePvPStatus m c = m) :=
  handlePvPStatusUpdate_upsert [] (PvPStatusAction.mk "POISON" "p1")
    (PvPStatusAction.mk "POISON" "p2") (by decide) (by decide)

/-! ### Resilient channel reconnect backoff (C3) -/

/-- The reconnect-relevant slice of `SharedWebSocket` state. -/
structure WSState where
  reconnectAttempt : Nat
  isActive : Bool
deriving Repr, BEq, DecidableEq

/-- `MAX_RECONNECT_DELAY` from `shared-websocket.ts` line 31. -/
def MAX_RECONNECT_DELAY : Nat := 30000

/-- The delay computed in `handleDisconnect` lines 181–184:
`Math.min(1000 * Math.pow(2, reconnectAttempt), MAX_RECONNECT_DELAY)`. -/
def reconnectDelay (attempt : Nat) : Nat :=
  min (1000 * 2 ^ attempt) MAX_RECONNECT_DELAY

/-- `handleDisconnect` (lines 173–194): when the channel is still active,
schedule a reconnect after the current backoff delay; when closed
explicitly, do nothing. -/
def handleDisconnect (s : WSState) : Option Nat × WSState :=
  if !s.isActive then (none, s)
  else (some (reconnectDelay s.reconnectAttempt), s)

/-- The reconnect timer firing (lines 188–191): increments the attempt
counter and retries `connect()`. -/
def reconnectTimerFire (s : WSState) : WSState :=
  { s with reconnectAttempt := s.reconnectAttempt + 1 }

/-- The `open` handler inside `connect()` (lines 69–80): a successful
socket open resets the attempt counter to zero. -/
def handleOpen (s : WSState) : WSState :=
  { s with reconnectAttempt := 0 }

/-- The delays scheduled by `n` consecutive failed reconnect cycles:
each cycle the close fires `handleDisconnect`, the timer fires, and the
new connection attempt fails and closes again. -/
def failureDelays (s : WSState) : Nat → List Nat
  | 0 => []
  | n + 1 =>
      match handleDisconnect s with
      | (some d, s2) => d :: failureDelays (reconnectTimerFire s2) n
      | (none, _) => []

theorem handleDisconnect_active {s : WSState} (h : s.isActive = true) :
    handleDisconnect s = (some (reconnectDelay s.reconnectAttempt), s) := by
  unfold handleDisconnect
  rw [h]
  rfl

theorem failureDelays_eq (n : Nat) : ∀ s : WSState, s.isActive = true →
    failureDelays s n =
      (List.range n).map (fun i => reconnectDelay (s.reconnectAttempt + i)) := by
  induction n with
  | zero => intro s hs; rfl
  | succ n ih =>
      intro s hs
      rw [failureDelays, handleDisconnect_active hs]
      have hact2 : (reconnectTimerFire s).isActive = true := hs
      show reconnectDelay s.reconnectAttempt ::
        failureDelays (reconnectTimerFire s) n = _
      rw [ih (reconnectTimerFire s) hact2, List.range_succ_eq_map]
      simp only [List.map_cons, Nat.add_zero, List.map_map]
      congr 1
      apply List.map_congr_left
      intro i hi
      simp only [Function.comp_apply, reconnectTimerFire]
      congr 1
      omega

/-- C3: from a freshly-opened connection (attempt counter reset to zero),
the delays scheduled by consecutive failed reconnect attempts are
`min (1000 * 2 ^ k) 30000` for attempts k = 0, 1, 2, …: 1000ms, 2000ms,
4000ms, doubling each attempt and capped at 30000ms, and after any
successful open the next scheduled delay is again 1000ms. -/
theorem reconnect_backoff (s : WSState) (n : Nat)
    (hact : s.isActive = true) :
    failureDelays (handleOpen s) n = (List.range n).map reconnectDelay ∧
    reconnectDelay 0 = 1000 ∧ reconnectDelay 1 = 2000 ∧
    reconnectDelay 2 = 4000 ∧
    (∀ k, reconnectDelay (k + 1) =
      min (2 * reconnectDelay k) MAX_RECONNECT_DELAY) ∧
    (∀ k, reconnectDelay k ≤ MAX_RECONNECT_DELAY) ∧
    handleDisconnect (handleOpen s) = (some 1000, handleOpen s) := by
  have hact2 : (handleOpen s).isActive = true := hact
  refine ⟨?_, by decide, by decide, by decide, ?_, ?_, ?_⟩
  · rw [failureDelays_eq n (handleOpen s) hact2]
    apply List.map_congr_left
    intro i hi
    show reconnectDelay ((handleOpen s).reconnectAttempt + i) = reconnectDelay i
    simp [handleOpen]
  · intro k
    simp only [reconnectDelay, MAX_RECONNECT_DELAY, pow_succ]
    omega
  · intro k
    exact min_le_right _ _
  · rw [handleDisconnect_active hact2]
    rfl

theorem reconnect_backoff_witness :
    (WSState.mk 4 true).isActive = true ∧
    (failureDelays (handleOpen (WSState.mk 4 true)) 7 =
        (List.range 7).map reconnectDelay ∧
      reconnectDelay 0 = 1000 ∧ reconnectDelay 1 = 2000 ∧
      reconnectDelay 2 = 4000 ∧
      (∀ k, reconnectDelay (k + 1) =
        min (2 * reconnectDelay k) MAX_RECONNECT_DELAY) ∧
      (∀ k, reconnectDelay k ≤ MAX_RECONNECT_DELAY) ∧
      handleDisconnect (handleOpen (WSState.mk 4 true)) =
        (some 1000, handleOpen (WSState.mk 4 true))) :=
  ⟨rfl, reconnect_backoff (WSState.mk 4 true) 7 rfl⟩

/-! ### Retry with backoff on rate limits (C9) -/

/-- A thrown JavaScript error as inspected by `retryWithBackoff`
(`error?.statusCode`). -/
structure JsError where
  statusCode : Option Nat
  message : String
deriving Repr, BEq, DecidableEq

/-- `config.retryDelay` of the orchestrator (10s, line 33). -/
def retryDelayConfig : Nat := 10000

/-- `config.maxRetries` of the orchestrator (3, line 34). -/
def maxRetriesConfig : Nat := 3

/-- The `retryWithBackoff` loop of `DebateOrchestrator` lines 52–71,
with the operation's outcome at attempt index `i` given by `op`, and the
remaining loop iterations as fuel (initially `retries`, so the loop
condition `i < retries` and the retry condition `i < retries - 1` become
`0 < fuel` tests).  Returns the result, the list of backoff sleeps
performed, and the number of attempts made. -/
def retryGo {T : Type} (op : Nat → Except JsError T) (i : Nat) :
    Nat → Except JsError T × List Nat × Nat
  | 0 => (.error (JsError.mk none "Max retries exceeded"), [], 0)
  | fuel + 1 =>
      match op i with
      | .ok v => (.ok v, [], 1)
      | .error e =>
          if e.statusCode = some 429 ∧ 0 < fuel then
            let r := retryGo op (i + 1) fuel
            (r.1, (retryDelayConfig * 2 ^ i) :: r.2.1, r.2.2 + 1)
          else (.error e, [], 1)

/-- `retryWithBackoff(operation, retries)`. -/
def retryWithBackoff {T : Type} (op : Nat → Except JsError T)
    (retries : Nat) : Except JsError T × List Nat × Nat :=
  retryGo op 0 retries

theorem retryGo_error_retry {T : Type} (op : Nat → Except JsError T)
    (i fuel : Nat) (e : JsError) (he : op i = .error e)
    (hs : e.statusCode = some 429) (hf : 0 < fuel) :
    retryGo op i (fuel + 1) =
      ((retryGo op (i + 1) fuel).1,
        (retryDelayConfig * 2 ^ i) :: (retryGo op (i + 1) fuel).2.1,
        (retryGo op (i + 1) fuel).2.2 + 1) := by
  rw [retryGo, he]
  show (if e.statusCode = some 429 ∧ 0 < fuel then
      let r := retryGo op (i + 1) fuel
      (r.1, (retryDelayConfig * 2 ^ i) :: r.2.1, r.2.2 + 1)
    else (.error e, [], 1)) = _
  rw [if_pos ⟨hs, hf⟩]

theorem retryGo_error_fail {T : Type} (op : Nat → Except JsError T)
    (i fuel : Nat) (e : JsError) (he : op i = .error e)
    (hc : ¬(e.statusCode = some 429 ∧ 0 < fuel)) :
    retryGo op i (fuel + 1) = (.error e, [], 1) := by
  rw [retryGo, he]
  show (if e.statusCode = some 429 ∧ 0 < fuel then
      let r := retryGo op (i + 1) fuel
      (r.1, (retryDelayConfig * 2 ^ i) :: r.2.1, r.2.2 + 1)
    else (.error e, [], 1)) = _
  rw [if_neg hc]

/-- C9: a failure with statusCode 429 is retried with exponentially
growing delay (retryDelay * 2^i) up to the configured maximum of 3
attempts, after which the last failure is surfaced to the caller; a
failure that is not a rate-limit failure is propagated immediately at
its first occurrence with no further attempts. -/
theorem retryWithBackoff_spec {T : Type} (op : Nat → Except JsError T)
    (e0 e1 e2 : JsError)
    (h0 : op 0 = .error e0) (h1 : op 1 = .error e1)
    (h2 : op 2 = .error e2)
    (hs0 : e0.statusCode = some 429) (hs1 : e1.statusCode = some 429) :
    retryWithBackoff op maxRetriesConfig =
      (.error e2,
        [retryDelayConfig * 2 ^ 0, retryDelayConfig * 2 ^ 1], 3) ∧
    (∀ i fuel : Nat, ∀ e : JsError, op i = .error e →
      e.statusCode ≠ some 429 →
      retryGo op i (fuel + 1) = (.error e, [], 1)) := by
  constructor
  · show retryGo op 0 3 = _
    rw [retryGo_error_retry op 0 2 e0 h0 hs0 (by omega),
      retryGo_error_retry op 1 1 e1 h1 hs1 (by omega),
      retryGo_error_fail op 2 0 e2 h2 (by omega)]
  · intro i fuel e he hne
    exact retryGo_error_fail op i fuel e he (fun hc => hne hc.1)

/-- A concrete operation that is rate-limited at every attempt, used to
exercise `retryWithBackoff_spec`. -/
def alwaysRateLimited (_i : Nat) : Except JsError Unit :=
  .error (JsError.mk (some 429) "rate")

theorem retryWithBackoff_spec_witness :
    (alwaysRateLimited 0 = .error (JsError.mk (some 429) "rate")) ∧
    (retryWithBackoff alwaysRateLimited maxRetriesConfig =
        (.error (JsError.mk (some 429) "rate"),
          [retryDelayConfig * 2 ^ 0, retryDelayConfig * 2 ^ 1], 3) ∧
      (∀ i fuel : Nat, ∀ e : JsError, alwaysRateLimited i = .error e →
        e.statusCode ≠ some 429 →
        retryGo alwaysRateLimited i (fuel + 1) = (.error e, [], 1))) :=
  ⟨rfl, retryWithBackoff_spec alwaysRateLimited _ _ _ rfl rfl rfl rfl rfl⟩

/-! ### Debate loop turn order (C2) -/

/-- The sends of one participant's turn: `handleGMTurn` (lines 148–170)
and `handleAgentTurn` (lines 172–185) both emit one message through
`sendAIMessage` when the content-generation call returns text, and
nothing when it returns null. -/
def turnSends (name : String) (resp : Option String) : List String :=
  match resp with
  | some _ => [name]
  | none => []

/-- One iteration of the `startDebate` while-loop (lines 224–246): the
GM turn first, then every agent's turn in construction order; `gen`
gives each participant's generation outcome for the round. -/
def debateRoundSends (gm : String) (agents : List String)
    (gen : String → Option String) : List String :=
  turnSends gm (gen gm) ++ agents.flatMap (fun a => turnSends a (gen a))

/-- The while-loop run for `n` full rounds while `isRunning` stays set,
starting at round index `k`; round `i` uses the outcomes `gen i`. -/
def debateLoopSends (gm : String) (agents : List String)
    (gen : Nat → String → Option String) : Nat → Nat → List String
  | _, 0 => []
  | k, n + 1 =>
      debateRoundSends gm agents (gen k) ++
        debateLoopSends gm agents gen (k + 1) n

theorem turnSends_some (name : String) {resp : Option String}
    (h : resp.isSome) : turnSends name resp = [name] := by
  obtain ⟨r, hr⟩ := Option.isSome_iff_exists.mp h
  rw [hr]
  rfl

theorem debateRoundSends_all_some (gm : String) (agents : List String)
    (g : String → Option String) (hg : ∀ p, (g p).isSome) :
    debateRoundSends gm agents g = gm :: agents := by
  unfold debateRoundSends
  rw [turnSends_some gm (hg gm)]
  have hagents : ∀ l : List String,
      l.flatMap (fun a => turnSends a (g a)) = l := by
    intro l
    induction l with
    | nil => rfl
    | cons a l ih =>
        rw [List.flatMap_cons, turnSends_some a (hg a), ih]
        rfl
  rw [hagents]
  rfl

/-- C2: while the running flag is set and every generation call yields
text, each iteration of the debate loop with Moderator `gm` and Debaters
`agents` (in construction order) emits sends in exactly the order
`gm :: agents` — for `agents = [A, B, C]` the order M, A, B, C — and
this order is identical in every round: the Moderator always precedes
every Debater, and the Debater order is fixed across rounds. -/
theorem debate_loop_order (gm : String) (agents : List String)
    (gen : Nat → String → Option String) (k n : Nat)
    (hgen : ∀ i p, (gen i p).isSome) :
    debateLoopSends gm agents gen k n =
      (List.replicate n (gm :: agents)).flatten := by
  induction n generalizing k with
  | zero => rfl
  | succ n ih =>
      rw [debateLoopSends, List.replicate_succ, List.flatten_cons,
        debateRoundSends_all_some gm agents (gen k) (hgen k), ih (k + 1)]

theorem debate_loop_order_witness :
    (∀ i : Nat, ∀ p : String,
      ((fun _ _ => some "text") i p : Option String).isSome) ∧
    debateLoopSends "M" ["A", "B", "C"] (fun _ _ => some "text") 0 2 =
      (List.replicate 2 ("M" :: ["A", "B", "C"])).flatten :=
  ⟨fun _ _ => rfl,
    debate_loop_order "M" ["A", "B", "C"] (fun _ _ => some "text") 0 2
      (fun _ _ => rfl)⟩

/-! ### Inbound AGENT_MESSAGE deduplication (C5) -/

/-- The content of an inbound AGENT_MESSAGE as read by
`handleAgentMessage` (`message.content`). -/
structure AgentMessage where
  timestamp : Int
  agentId : Int
  text : String
deriving Repr, BEq, DecidableEq

/-- The composite dedup key built at line 655:
`${message.content?.timestamp}-${message.content?.agentId}`. -/
def messageIdOf (m : AgentMessage) : String :=
  toString m.timestamp ++ "-" ++ toString m.agentId

/-- The `processedMessages` set of `AgentClient`. -/
structure DedupState where
  processedMessages : List String
deriving Repr, BEq, DecidableEq

/-- `AgentClient.handleAgentMessage` (lines 652–672): drop a message
whose dedup key was already processed; otherwise record the key and,
when the message is from another agent and the generation collaborator
(`integration.processMessage`) returns text, send exactly one reply.
Returns the new state and the replies sent. -/
def handleAgentMessage (selfId : Int) (st : DedupState) (m : AgentMessage)
    (gen : String → Option String) : DedupState × List String :=
  let mid := messageIdOf m
  if st.processedMessages.contains mid then (st, [])
  else
    let st2 := DedupState.mk (mid :: st.processedMessages)
    if m.agentId ≠ selfId then
      match gen m.text with
      | some r => (st2, [r])
      | none => (st2, [])
    else (st2, [])

/-- C5: delivering a second AGENT_MESSAGE with the same composite key
(timestamp, agentId) to `handleAgentMessage` is dropped without
reprocessing — the state is unchanged and no reply is sent — so a
participant produces exactly one reply across the two deliveries
whenever the first delivery produced one. -/
theorem handleAgentMessage_dedup (selfId : Int) (st : DedupState)
    (m1 m2 : AgentMessage) (gen : String → Option String) (r : String)
    (hkey : messageIdOf m1 = messageIdOf m2)
    (hfresh : st.processedMessages.contains (messageIdOf m1) = false)
    (hother : m1.agentId ≠ selfId)
    (hgen : gen m1.text = some r) :
    (handleAgentMessage selfId st m1 gen).2 = [r] ∧
    handleAgentMessage selfId
        (handleAgentMessage selfId st m1 gen).1 m2 gen =
      ((handleAgentMessage selfId st m1 gen).1, []) ∧
    (handleAgentMessage selfId st m1 gen).2 ++
      (handleAgentMessage selfId
        (handleAgentMessage selfId st m1 gen).1 m2 gen).2 = [r] := by
  have h1 : handleAgentMessage selfId st m1 gen =
      (DedupState.mk (messageIdOf m1 :: st.processedMessages), [r]) := by
    unfold handleAgentMessage
    rw [if_neg (by rw [hfresh]; exact Bool.false_ne_true),
      if_pos hother, hgen]
  have hmem : (DedupState.mk
      (messageIdOf m1 :: st.processedMessages)).processedMessages.contains
        (messageIdOf m2) = true := by
    rw [← hkey]
    simp [List.contains_cons]
  have h2 : handleAgentMessage selfId
      (DedupState.mk (messageIdOf m1 :: st.processedMessages)) m2 gen =
      (DedupState.mk (messageIdOf m1 :: st.processedMessages), []) := by
    unfold handleAgentMessage
    rw [if_pos hmem]
  rw [h1]
  refine ⟨rfl, by rw [h2], ?_⟩
  rw [h2]
  rfl

theorem handleAgentMessage_dedup_witness :
    (messageIdOf (AgentMessage.mk 1700 56 "hi") =
      messageIdOf (AgentMessage.mk 1700 56 "hi again")) ∧
    ((DedupState.mk []).processedMessages.contains
      (messageIdOf (AgentMessage.mk 1700 56 "hi")) = false) ∧
    ((AgentMessage.mk 1700 56 "hi").agentId ≠ (50 : Int)) ∧
    ((fun _ => some "reply") (AgentMessage.mk 1700 56 "hi").text =
      some "reply") ∧
    ((handleAgentMessage 50 (DedupState.mk [])
        (AgentMessage.mk 1700 56 "hi") (fun _ => some "reply")).2 = ["reply"] ∧
      handleAgentMessage 50
          (handleAgentMessage 50 (DedupState.mk [])
            (AgentMessage.mk 1700 56 "hi") (fun _ => some "reply")).1
          (AgentMessage.mk 1700 56 "hi again") (fun _ => some "reply") =
        ((handleAgentMessage 50 (DedupState.mk [])
          (AgentMessage.mk 1700 56 "hi") (fun _ => some "reply")).1, []) ∧
      (handleAgentMessage 50 (DedupState.mk [])
          (AgentMessage.mk 1700 56 "hi") (fun _ => some "reply")).2 ++
        (handleAgentMessage 50
          (handleAgentMessage 50 (DedupState.mk [])
            (AgentMessage.mk 1700 56 "hi") (fun _ => some "reply")).1
          (AgentMessage.mk 1700 56 "hi again")
          (fun _ => some "reply")).2 = ["reply"]) :=
  ⟨rfl, rfl, by decide, rfl,
    handleAgentMessage_dedup 50 (DedupState.mk [])
      (AgentMessage.mk 1700 56 "hi") (AgentMessage.mk 1700 56 "hi again")
      (fun _ => some "reply") "reply" rfl rfl (by decide) rfl⟩

/-! ### Poison effect application (C8) -/

/-- Modelled from JavaScript semantics: `new RegExp(find, flags)` in
`applyPoisonEffect` throws a SyntaxError when `find` is not a valid
regular expression (for example an unterminated group `"("`).
`regexSyntaxOk` is the syntactic validity check standing in for the
library's pattern parser: group parentheses must be balanced. -/
def regexSyntaxOk (find : String) : Bool :=
  (find.data.foldl
    (fun st c =>
      match st with
      | none => none
      | some depth =>
          if c = '(' then some (depth + 1)
          else if c = ')' then
            (if depth = 0 then none else some (depth - 1))
          else some depth)
    (some 0)) == some 0

/-- The `POISON` entry of the active-effects registry:
`{find, replace, caseSensitive}`. -/
structure PoisonEffect where
  find : String
  replace : String
  caseSensitive : Bool
deriving Repr, BEq, DecidableEq

/-- `AgentClient.applyPoisonEffect` (lines 824–828) in an
exception-passing model: constructing the RegExp fails on a malformed
pattern and the error propagates (there is no try/catch in this method);
on a valid pattern the text is rewritten by global substitution
(modelled for literal patterns; the substitution result does not affect
the exception behavior under verification, and `caseSensitive` only
selects the `g` versus `gi` flags, both valid). -/
def applyPoisonEffect (text : String) (eff : PoisonEffect) :
    Except String String :=
  if regexSyntaxOk eff.find then
    .ok (text.replace eff.find eff.replace)
  else .error "Invalid regular expression"

/-- `AgentClient.applyPvPEffects` (lines 809–822) restricted to its
Poison path: when a POISON effect is active and the payload has text,
rewrite it via `applyPoisonEffect`; a thrown error propagates to the
caller (no try/catch here either). -/
def applyPvPEffects (text : String) (poison : Option PoisonEffect) :
    Except String String :=
  match poison with
  | none => .ok text
  | some eff => applyPoisonEffect text eff

/-- The try/catch wrapping `processSystemMessage` (lines 718–786): any
exception thrown while applying effects makes the handler return null,
dropping the message. -/
def processWithPvP (text : String) (poison : Option PoisonEffect) :
    Option String :=
  match applyPvPEffects text poison with
  | .ok t => some t
  | .error _ => none

/-- C8 counterexample: with an active Poison effect whose pattern `"("`
is not a valid regular expression, applying the effect overlay raises
(the RegExp constructor error propagates out of `applyPoisonEffect`)
instead of falling back to an identity transform: the payload text
`"hello"` is not returned unchanged. -/
theorem applyPoisonEffect_malformed_raises :
    applyPvPEffects "hello" (some (PoisonEffect.mk "(" "x" true)) ≠
      Except.ok "hello" ∧
    applyPvPEffects "hello" (some (PoisonEffect.mk "(" "x" true)) =
      Except.error "Invalid regular expression" ∧
    processWithPvP "hello" (some (PoisonEffect.mk "(" "x" true)) = none := by
  have heq : applyPvPEffects "hello" (some (PoisonEffect.mk "(" "x" true)) =
      Except.error "Invalid regular expression" := rfl
  refine ⟨?_, heq, rfl⟩
  rw [heq]
  intro h
  exact Except.noConfusion h

/-- C8 (amended): applying the Poison overlay raises exactly on
malformed patterns — with a well-formed pattern it never raises — and a
raised error is turned by the enclosing message-processing catch into a
dropped message (null), not an identity fallback returning the text
unchanged. -/
theorem applyPvPEffects_error_behavior (text : String)
    (eff : PoisonEffect) :
    ((∃ e, applyPvPEffects text (some eff) = .error e) ↔
      regexSyntaxOk eff.find = false) ∧
    (regexSyntaxOk eff.find = false →
      processWithPvP text (some eff) = none) ∧
    (∀ p : Option PoisonEffect,
      (∀ f, p = some f → regexSyntaxOk f.find = true) →
      ∃ t, applyPvPEffects text p = .ok t) := by
  refine ⟨⟨?_, ?_⟩, ?_, ?_⟩
  · rintro ⟨e, he⟩
    by_contra hok
    rw [Bool.not_eq_false] at hok
    simp only [applyPvPEffects, applyPoisonEffect, hok, if_true] at he
    exact Except.noConfusion he
  · intro hbad
    exact ⟨"Invalid regular expression", by
      simp only [applyPvPEffects, applyPoisonEffect, hbad,
        Bool.false_eq_true, if_false]⟩
  · intro hbad
    simp only [processWithPvP, applyPvPEffects, applyPoisonEffect, hbad,
      Bool.false_eq_true, if_false]
  · intro p hp
    match p with
    | none => exact ⟨text, rfl⟩
    | some f =>
        have hf := hp f rfl
        exact ⟨text.replace f.find f.replace, by
          simp only [applyPvPEffects, applyPoisonEffect, hf, if_true]⟩

theorem applyPvPEffects_error_behavior_witness :
    ((∃ e, applyPvPEffects "gm says hi"
        (some (PoisonEffect.mk "(" "x" true)) = .error e) ↔
      regexSyntaxOk (PoisonEffect.mk "(" "x" true).find = false) ∧
    (regexSyntaxOk (PoisonEffect.mk "(" "x" true).find = false →
      processWithPvP "gm says hi"
        (some (PoisonEffect.mk "(" "x" true)) = none) ∧
    (∀ p : Option PoisonEffect,
      (∀ f, p = some f → regexSyntaxOk f.find = true) →
      ∃ t, applyPvPEffects "gm says hi" p = .ok t) :=
  applyPvPEffects_error_behavior "gm says hi" (PoisonEffect.mk "(" "x" true)

/-! ### No envelope before round resolution (C6) -/

/-- The round/channel slice of an `AgentClient`'s state: the resolved
round id (none until `getActiveRound` succeeds at line 437) and whether
the websocket built at line 481 is open.  A fresh client starts with no
round and a never-connected socket (the constructor's `SharedWebSocket`
never has `connect()` called on it). -/
structure ClientState where
  roundId : Option Nat
  wsOpen : Bool
deriving Repr, BEq, DecidableEq

/-- An envelope written to the backend (over the websocket or the
message POST endpoint). -/
structure Envelope where
  messageType : String
deriving Repr, BEq, DecidableEq

/-- The events that can drive an `AgentClient`. -/
inductive ClientEvent where
  /-- `getActiveRound` succeeds inside `setRoomAndRound` (line 437). -/
  | roundResolved (r : Nat)
  /-- `getActiveRound` throws: `setRoomAndRound` rethrows before any
  connect (lines 439–442). -/
  | roundResolveFailed
  /-- the websocket `open` handler fires and `subscribeToRoom` sends the
  SUBSCRIBE_ROOM envelope; the only `connect()` calls in the client are
  on the socket built at line 481, after `this.roundId` was assigned at
  line 437, so an open cannot occur while the round is unresolved. -/
  | connectOpened
  /-- the socket closes. -/
  | wsClosed
  /-- an inbound HEARTBEAT arrives (only possible on an open socket) and
  the client answers with a signed heartbeat envelope via
  `wsClient.send`, which writes only when the socket is open. -/
  | inboundHeartbeat
  /-- `sendAIMessage` is invoked; it throws before building any envelope
  when `roomId`/`roundId` are unset (lines 556–559). -/
  | sendAIMessage
deriving Repr, BEq, DecidableEq

/-- One step of the client: the next state and the envelopes written. -/
def step (s : ClientState) (e : ClientEvent) :
    ClientState × List Envelope :=
  match e with
  | .roundResolved r => ({ s with roundId := some r }, [])
  | .roundResolveFailed => (s, [])
  | .connectOpened =>
      if s.roundId.isSome then
        ({ s with wsOpen := true }, [Envelope.mk "subscribe_room"])
      else (s, [])
  | .wsClosed => ({ s with wsOpen := false }, [])
  | .inboundHeartbeat =>
      if s.wsOpen then (s, [Envelope.mk "heartbeat"]) else (s, [])
  | .sendAIMessage =>
      match s.roundId with
      | none => (s, [])
      | some _ => (s, [Envelope.mk "agent_message"])

/-- A freshly constructed `AgentClient` (lines 381–424). -/
def initState : ClientState := ClientState.mk none false

/-- Run the client over a sequence of events. -/
def runEvents : ClientState → List ClientEvent → ClientState
  | s, [] => s
  | s, e :: es => runEvents (step s e).1 es

theorem step_wsOpen_roundId (s : ClientState) (e : ClientEvent)
    (hinv : s.roundId = none → s.wsOpen = false) :
    (step s e).1.roundId = none → (step s e).1.wsOpen = false := by
  cases e with
  | roundResolved r => intro h; simp [step] at h
  | roundResolveFailed => exact hinv
  | connectOpened =>
      by_cases hr : s.roundId.isSome
      · simp only [step, hr, if_true]
        intro h
        rw [h] at hr
        exact absurd hr (by simp)
      · simp only [step, hr, Bool.false_eq_true, if_false]
        exact hinv
  | wsClosed => intro h; simp [step]
  | inboundHeartbeat =>
      have hst : (step s ClientEvent.inboundHeartbeat).1 = s := by
        by_cases ho : s.wsOpen <;> simp [step, ho]
      rw [hst]
      exact hinv
  | sendAIMessage =>
      have hst : (step s ClientEvent.sendAIMessage).1 = s := by
        cases hr : s.roundId <;> simp [step, hr]
      rw [hst]
      exact hinv

theorem runEvents_inv (es : List ClientEvent) : ∀ s : ClientState,
    (s.roundId = none → s.wsOpen = false) →
    ((runEvents s es).roundId = none → (runEvents s es).wsOpen = false) := by
  induction es with
  | nil => intro s hs; exact hs
  | cons e es ih =>
      intro s hs
      exact ih (step s e).1 (step_wsOpen_roundId s e hs)

/-- C6: in every client state reachable from a fresh `AgentClient` in
which the round id has not been resolved by a successful
round-resolution call, no event causes any envelope to be written:
every send path fails or is suppressed before the write while `roundId`
is unset. -/
theorem no_send_before_round (es : List ClientEvent)
    (hnone : (runEvents initState es).roundId = none) (e : ClientEvent) :
    (step (runEvents initState es) e).2 = [] := by
  have hclosed : (runEvents initState es).wsOpen = false :=
    runEvents_inv es initState (fun _ => rfl) hnone
  cases e with
  | roundResolved r => rfl
  | roundResolveFailed => rfl
  | connectOpened =>
      have : (runEvents initState es).roundId.isSome = false := by
        rw [hnone]; rfl
      simp [step, this]
  | wsClosed => rfl
  | inboundHeartbeat => simp [step, hclosed]
  | sendAIMessage => simp [step, hnone]

theorem no_send_before_round_witness :
    ((runEvents initState [ClientEvent.roundResolveFailed,
        ClientEvent.sendAIMessage]).roundId = none) ∧
    (step (runEvents initState [ClientEvent.roundResolveFailed,
        ClientEvent.sendAIMessage]) ClientEvent.inboundHeartbeat).2 = [] :=
  ⟨rfl, no_send_before_round
    [ClientEvent.roundResolveFailed, ClientEvent.sendAIMessage] rfl
    ClientEvent.inboundHeartbeat⟩

end PVPVAI
